import Mathlib

/-!
Verification of the retrieval-and-ranking pipeline and response-contract
enforcement of the rag-microservice repository (server/index.js,
server/vectorStore.js).

Modelling conventions:
* JavaScript numbers are modelled by `JNum`: an exact rational together with
  the special values `nan`, `inf`, `ninf`.  Floating-point rounding is
  abstracted away (the spec's own arithmetic examples, e.g. 0.4 + 0.02 = 0.42,
  use exact real arithmetic), but the IEEE special-value semantics that the
  code observably depends on (NaN propagation, all comparisons with NaN being
  false) are modelled faithfully.
* `Array.prototype.sort(cmp)` is modelled as a stable sort processing the
  array left to right; per ECMA-262, a comparator result of NaN is treated
  as 0.  For consistent comparators this is exactly the (stable) sort the
  engine performs; for inconsistent comparators (possible only when NaN
  scores are present) ECMA leaves the order implementation-defined and the
  model fixes one stable strategy.  All concrete counterexamples below use
  list lengths at which every stable strategy agrees.
* `Math.sqrt` is kept as a parameter `s : ℚ → ℚ` of the vector-store
  definitions; theorems assume only `s q = 0 ↔ q = 0` (for `q ≥ 0`) and
  `0 ≤ s q`, properties of the real (and of the correctly rounded IEEE)
  square root.  Concrete witnesses use `sqrtModel`, which agrees with the
  true square root on every argument whose value matters in them (0 and 1;
  where it is also evaluated elsewhere, the score is NaN for any `s`).
-/

namespace RagSvc

/-- Model of a JavaScript number: an exact rational, or one of the IEEE
special values NaN, +Infinity, -Infinity. -/
inductive JNum where
  | num (q : ℚ)
  | nan
  | inf
  | ninf
deriving DecidableEq, Repr

namespace JNum

/-- `x + y` for JS numbers. -/
def jadd : JNum → JNum → JNum
  | num a, num b => num (a + b)
  | nan, _ => nan
  | _, nan => nan
  | inf, ninf => nan
  | ninf, inf => nan
  | inf, _ => inf
  | _, inf => inf
  | ninf, _ => ninf
  | _, ninf => ninf

/-- `x - y` for JS numbers. -/
def jsub : JNum → JNum → JNum
  | num a, num b => num (a - b)
  | nan, _ => nan
  | _, nan => nan
  | inf, inf => nan
  | ninf, ninf => nan
  | inf, _ => inf
  | ninf, _ => ninf
  | _, inf => ninf
  | _, ninf => inf

/-- `x * y` for JS numbers. -/
def jmul : JNum → JNum → JNum
  | num a, num b => num (a * b)
  | nan, _ => nan
  | _, nan => nan
  | inf, inf => inf
  | inf, ninf => ninf
  | ninf, inf => ninf
  | ninf, ninf => inf
  | inf, num b => if b = 0 then nan else if 0 < b then inf else ninf
  | num a, inf => if a = 0 then nan else if 0 < a then inf else ninf
  | ninf, num b => if b = 0 then nan else if 0 < b then ninf else inf
  | num a, ninf => if a = 0 then nan else if 0 < a then ninf else inf

/-- `x / y` for JS numbers (ℚ has a single zero, so the `±0` divisor signs
are both represented by `0`; the code only ever divides by products of
square roots, which are non-negative). -/
def jdiv : JNum → JNum → JNum
  | nan, _ => nan
  | _, nan => nan
  | num a, num b =>
      if b = 0 then (if a = 0 then nan else if 0 < a then inf else ninf)
      else num (a / b)
  | num _, inf => num 0
  | num _, ninf => num 0
  | inf, num b => if b < 0 then ninf else inf
  | ninf, num b => if b < 0 then inf else ninf
  | inf, inf => nan
  | inf, ninf => nan
  | ninf, inf => nan
  | ninf, ninf => nan

/-- IEEE `x <= y`: false whenever an operand is NaN. -/
def jle : JNum → JNum → Bool
  | nan, _ => false
  | _, nan => false
  | num a, num b => decide (a ≤ b)
  | ninf, _ => true
  | _, ninf => false
  | _, inf => true
  | inf, _ => false

/-- IEEE `x >= y` (the form the threshold filter uses). -/
def jge (x y : JNum) : Bool := jle y x

/-- IEEE `x < y`: false whenever an operand is NaN. -/
def jlt : JNum → JNum → Bool
  | nan, _ => false
  | _, nan => false
  | num a, num b => decide (a < b)
  | ninf, ninf => false
  | ninf, _ => true
  | _, ninf => false
  | inf, _ => false
  | _, inf => true

/-- IEEE `x > y`. -/
def jgt (x y : JNum) : Bool := jlt y x

/-- Is the value an ordinary (finite, non-NaN) number? -/
def isNum : JNum → Bool
  | num _ => true
  | _ => false

/-- The sign information ECMA-262 SortCompare extracts from a comparator
result: a NaN comparator value is treated as `+0`; infinities only matter
through their sign. -/
def cmpQ : JNum → ℚ
  | num q => q
  | nan => 0
  | inf => 1
  | ninf => -1

end JNum

open JNum

/-! ### The stable sort used by `.sort((a, b) => b.key - a.key)`

`sortInsert` inserts one element into the already-processed portion, walking
past every element that the comparator does not strictly order after the new
one; `jsSort` folds it over the list left to right.  This is a stable sort:
elements whose comparator value is 0 (equal keys, or a NaN key) keep their
original relative order. -/

/-- Insert `x` after every element `b` whose comparator result
`(key x) - (key b)` is ≤ 0 (ECMA maps a NaN result to 0). -/
def sortInsert (key : α → JNum) (x : α) : List α → List α
  | [] => [x]
  | b :: bs =>
      if cmpQ (jsub (key x) (key b)) ≤ 0 then b :: sortInsert key x bs
      else x :: b :: bs

/-- The model of `array.sort((a, b) => (key b) - (key a))`: descending stable
sort by `key`. -/
def jsSort (key : α → JNum) (l : List α) : List α :=
  l.foldl (fun acc x => sortInsert key x acc) []

/-- The pairwise order relation maintained by the sort: `a` may precede `b`. -/
def CmpLE (key : α → JNum) (a b : α) : Prop :=
  cmpQ (jsub (key b) (key a)) ≤ 0

instance (key : α → JNum) (a b : α) : Decidable (CmpLE key a b) := by
  unfold CmpLE; infer_instance

/-! ### CandidateRanker: the ranking passes of the `/ask` handler
(server/index.js lines 36-60). -/

/-- A scored candidate as returned by `topK` and consumed by the ranking
passes: `{score, id, doc, chunkIndex, text}`, with the `reRankScore` field
that the re-rank pass later adds (absent — JS `undefined` — before that,
modelled as `none`). -/
structure Cand where
  score : JNum
  id : String
  doc : String
  chunkIndex : ℕ
  text : String
  reRankScore : Option JNum
deriving DecidableEq, Repr

/-- The character class `[a-zA-Z0-9_\-]` of the filename regex. -/
def isWordChar (c : Char) : Bool := c.isAlphanum || c = '_' || c = '-'

/-- `toLowerCase` on a character list. -/
def lowerStr (s : List Char) : List Char := s.map Char.toLower

/-- The ordered alternation `(txt|md|pdf)` of the filename regex, matched
case-insensitively against the start of `rest`; returns the extension as it
appears in the text. -/
def extMatch (rest : List Char) : Option (List Char) :=
  if lowerStr (rest.take 3) = ['t', 'x', 't'] then some (rest.take 3)
  else if lowerStr (rest.take 2) = ['m', 'd'] then some (rest.take 2)
  else if lowerStr (rest.take 3) = ['p', 'd', 'f'] then some (rest.take 3)
  else none

/-- The leftmost match of `/([a-zA-Z0-9_\-]+\.(txt|md|pdf))/i` in the
question.  Since `.` is not in the character class, a match can only be a
maximal run of word characters followed by `.` and one of the extensions, so
the regex engine's position-by-position scan collapses to: try each maximal
run, else skip ahead. -/
def scanFileMention : List Char → Option (List Char)
  | [] => none
  | c :: cs =>
      if isWordChar c then
        match List.dropWhile isWordChar cs with
        | '.' :: r2 =>
            match extMatch r2 with
            | some ext =>
                some ((c :: List.takeWhile isWordChar cs) ++ '.' :: ext)
            | none => scanFileMention cs
        | _ => scanFileMention cs
      else scanFileMention cs

/-- Exact filename-mention boost (lines 36-44): if the question contains a
filename-like token, add 0.6 to the score of every candidate whose `doc`
equals it case-insensitively (the code also requires `rc.doc` to be truthy,
i.e. the string must be non-empty). -/
def boostPass (q : String) (cs : List Cand) : List Cand :=
  match scanFileMention q.data with
  | none => cs
  | some m =>
      let filename := lowerStr m
      cs.map (fun c =>
        if c.doc ≠ "" ∧ lowerStr c.doc.data = filename then
          { c with score := jadd c.score (num (0.6 : ℚ)) }
        else c)

/-- The threshold filter (line 48): keep candidates with `score >= t`. -/
def thresholdFilter (t : ℚ) (cs : List Cand) : List Cand :=
  cs.filter (fun c => jge c.score (num t))

/-- Filter plus the fallback (lines 48-53): if nothing survives, take the
first `min(3, rawContexts.length)` entries of the (boosted) raw list. -/
def survivors (q : String) (t : ℚ) (cs : List Cand) : List Cand :=
  if (thresholdFilter t (boostPass q cs)).length = 0 then
    (boostPass q cs).take (min 3 (boostPass q cs).length)
  else thresholdFilter t (boostPass q cs)

/-- `docCounts[d]` (lines 56-57): how many surviving candidates come from
document `d`. -/
def docCount (cs : List Cand) (d : String) : ℕ :=
  cs.countP (fun c => c.doc = d)

/-- The doc-frequency map (line 59):
`reRankScore = score + 0.02 * (docCounts[doc] - 1)`. -/
def reRankPass (cs : List Cand) : List Cand :=
  cs.map (fun c =>
    let v := jadd c.score (num ((0.02 : ℚ) * ((docCount cs c.doc : ℚ) - 1)))
    { c with reRankScore := some v })

/-- The key read by the comparator `(a, b) => b.reRankScore - a.reRankScore`;
an absent field is JS `undefined`, whose subtraction yields NaN, which is
what `Option.getD nan` produces here. -/
def rrKey (c : Cand) : JNum := c.reRankScore.getD nan

/-- The full ranking pass of the handler (lines 36-60): filename boost,
threshold filter with fallback, doc-frequency re-rank, stable sort by
descending `reRankScore`. -/
def rank (q : String) (t : ℚ) (cs : List Cand) : List Cand :=
  jsSort rrKey (reRankPass (survivors q t cs))

/-- Forget the `reRankScore` field (for comparing ranked entries with raw
top-K entries). -/
def stripRR (c : Cand) : Cand := { c with reRankScore := none }

/-! ### VectorStore (server/vectorStore.js) -/

/-- A persisted chunk record of `vectors.json`:
`{id, doc, chunkIndex, text, embedding}`. -/
structure VRec where
  id : String
  doc : String
  chunkIndex : ℕ
  text : String
  embedding : List ℚ
deriving DecidableEq, Repr

/-- `dot(a, b)` (line 12): iterates over `a`'s indices; reading past the end
of `b` yields JS `undefined`, and `a[i] * undefined` is NaN. -/
def jdot : List ℚ → List ℚ → JNum
  | [], _ => num 0
  | a :: as, [] => jadd (jmul (num a) nan) (jdot as [])
  | a :: as, b :: bs => jadd (num (a * b)) (jdot as bs)

/-- `Math.sqrt` lifted to JS numbers; the rational square-root approximation
`s` is a parameter (see the header comment). -/
def jsqrt (s : ℚ → ℚ) : JNum → JNum
  | num q => if q < 0 then nan else num (s q)
  | nan => nan
  | inf => inf
  | ninf => nan

/-- `norm(a) = Math.sqrt(dot(a, a))` (line 13). -/
def jnorm (s : ℚ → ℚ) (a : List ℚ) : JNum := jsqrt s (jdot a a)

/-- `cosine(a, b) = dot(a, b) / (norm(a) * norm(b))` (line 14). -/
def cosine (s : ℚ → ℚ) (a b : List ℚ) : JNum :=
  jdiv (jdot a b) (jmul (jnorm s a) (jnorm s b))

/-- `Σ xᵢ²` — the exact quantity under the square root in `norm`; it is `0`
exactly when the vector has zero norm. -/
def sumSq (a : List ℚ) : ℚ := (a.map (fun x => x * x)).sum

/-- The scored-and-sorted list built inside `topK` (lines 17-18), before
truncation: score every stored record, then stable-sort descending by
score. -/
def topKPre (s : ℚ → ℚ) (vectors : List VRec) (qEmb : List ℚ) :
    List (JNum × VRec) :=
  jsSort Prod.fst (vectors.map (fun v => (cosine s qEmb v.embedding, v)))

/-- The fresh result object built for one scored record (the object literal
on line 19): `{score: s.score, id: s.v.id, doc: s.v.doc, chunkIndex:
s.v.chunkIndex, text: s.v.text}`. -/
def candOf (sv : JNum × VRec) : Cand :=
  { score := sv.1, id := sv.2.id, doc := sv.2.doc,
    chunkIndex := sv.2.chunkIndex, text := sv.2.text, reRankScore := none }

/-- `topK(queryEmb, k)` (lines 16-20): truncate to `k` and copy each record
into a fresh `{score, id, doc, chunkIndex, text}` object. -/
def topK (s : ℚ → ℚ) (vectors : List VRec) (qEmb : List ℚ) (k : ℕ) :
    List Cand :=
  ((topKPre s vectors qEmb).take k).map candOf

/-- A computable stand-in for `Math.sqrt` satisfying the two properties the
theorems assume; it agrees with the true square root on the arguments `0`
and `1`, the only ones arising in the concrete witnesses below. -/
def sqrtModel (q : ℚ) : ℚ := if q ≤ 0 then 0 else q

/-! ### Heap model for the store-isolation claim

To state that mutating a candidate returned by `topK` cannot change the
loaded collection, object identity must be expressible: heap cells hold
either a loaded store record or a candidate object, `topK` allocates its
result objects as fresh cells (the object literal on line 19 of
vectorStore.js builds a new object per result), and the boost pass mutates
through addresses. -/

inductive HVal where
  | vrec (r : VRec)
  | cobj (c : Cand)
deriving DecidableEq, Repr

/-- The loaded vector collection: the store records present on the heap, in
heap order. -/
def readStore (h : List HVal) : List VRec :=
  h.filterMap (fun v => match v with | .vrec r => some r | .cobj _ => none)

/-- `topK` with explicit allocation: computes the same candidates as `topK`
and appends them to the heap as fresh objects, returning their addresses. -/
def topKAlloc (s : ℚ → ℚ) (h : List HVal) (qEmb : List ℚ) (k : ℕ) :
    List ℕ × List HVal :=
  let cands := topK s (readStore h) qEmb k
  (List.range' h.length cands.length, h ++ cands.map HVal.cobj)

/-- The in-place `rc.score += 0.6` of the boost pass (line 41), performed
through a heap address. -/
def boostAt (fn : List Char) (h : List HVal) (i : ℕ) : List HVal :=
  match h[i]? with
  | some (HVal.cobj c) =>
      if c.doc ≠ "" ∧ lowerStr c.doc.data = fn then
        h.set i (HVal.cobj { c with score := jadd c.score (num (0.6 : ℚ)) })
      else h
  | _ => h

/-- The boost loop (lines 39-43) over the addresses returned by `topK`. -/
def boostHeap (fn : List Char) (idxs : List ℕ) (h : List HVal) : List HVal :=
  idxs.foldl (boostAt fn) h

/-! ### JS values, the answer contract, and the `/ask` handler
(server/index.js lines 16-134) -/

/-- A JavaScript value as far as the handler observes them: `undefined`,
`null`, booleans, numbers, strings, arrays and plain objects. -/
inductive JVal where
  | undefined
  | jnull
  | bool (b : Bool)
  | jnum (x : JNum)
  | str (s : String)
  | arr (xs : List JVal)
  | obj (fields : List (String × JVal))

/-- JS `typeof`; note `typeof null === "object"`. -/
def jtypeof : JVal → String
  | .undefined => "undefined"
  | .jnull => "object"
  | .bool _ => "boolean"
  | .jnum _ => "number"
  | .str _ => "string"
  | .arr _ => "object"
  | .obj _ => "object"

/-- Property read `v.k`: throws a TypeError on `null`/`undefined` bases,
yields the field (last duplicate wins, as in JS) on objects, and `undefined`
on every other base. -/
def getProp : JVal → String → Except String JVal
  | .jnull, k => .error ("TypeError: Cannot read properties of null (reading " ++ k ++ ")")
  | .undefined, k => .error ("TypeError: Cannot read properties of undefined (reading " ++ k ++ ")")
  | .obj fields, k =>
      .ok (match fields.reverse.lookup k with
           | some v => v
           | none => .undefined)
  | _, _ => .ok .undefined

/-- Optional chaining `v?.k`: like `getProp` but `undefined` instead of a
TypeError on `null`/`undefined`. -/
def optProp (v : JVal) (k : String) : JVal :=
  match v with
  | .undefined => .undefined
  | .jnull => .undefined
  | _ => match getProp v k with
         | .ok r => r
         | .error _ => .undefined

/-- `Array.isArray`. -/
def isArray : JVal → Bool
  | .arr _ => true
  | _ => false

/-- JS truthiness. -/
def truthy : JVal → Bool
  | .undefined => false
  | .jnull => false
  | .bool b => b
  | .jnum (num q) => decide (q ≠ 0)
  | .jnum nan => false
  | .jnum inf => true
  | .jnum ninf => true
  | .str s => decide (s ≠ "")
  | .arr _ => true
  | .obj _ => true

/-- The whitespace class removed by `String.prototype.trim` (restricted to
the characters a question can realistically contain; further Unicode space
code points behave identically). -/
def isJsSpace (c : Char) : Bool :=
  c = ' ' || c = '\t' || c = '\n' || c = '\r' || c = '\x0b' || c = '\x0c' ||
    c = ' '

/-- `s.trim()`. -/
def trimJS (s : String) : String :=
  String.mk (((s.data.dropWhile isJsSpace).reverse.dropWhile isJsSpace).reverse)

/-- Input validation (lines 19-23): `!q || typeof q !== "string" ||
q.trim().length === 0` rejects with `question required`, then
`q.length > 2000` rejects with `question too long`.  Returns the error
message, or `none` when the question is accepted. -/
def validateQuestion (q : JVal) : Option String :=
  if ¬ truthy q then some "question required"
  else
    match q with
    | .str s =>
        if (trimJS s).length = 0 then some "question required"
        else if 2000 < s.length then some "question too long"
        else none
    | _ => some "question required"

/-- Outcome of parsing and shape-checking the raw model output
(lines 94-128).  `serverError` is the catch-all `catch` branch (line 130),
reached when the shape check itself throws. -/
inductive ContractOutcome where
  | notJson (raw parseErr : String)
  | invalidShape (parsed : JVal)
  | valid (answer : String) (sources : List JVal)
  | serverError

/-- Lines 94-119 plus the surrounding `try`: classify a parse result.  The
shape check is the short-circuit disjunction
`typeof parsed !== "object" || typeof parsed.answer !== "string" ||
!Array.isArray(parsed.sources)`; reading `.answer` off `null` throws, and
the throw is caught by the handler's catch-all.  The two inner `match`
defaults are unreachable (guarded by the `typeof`/`isArray` tests). -/
def classifyModelOutput (parseResult : Except String JVal) (raw : String) :
    ContractOutcome :=
  match parseResult with
  | .error e => .notJson raw e
  | .ok parsed =>
      if jtypeof parsed ≠ "object" then .invalidShape parsed
      else
        match getProp parsed "answer" with
        | .error _ => .serverError
        | .ok a =>
            if jtypeof a ≠ "string" then .invalidShape parsed
            else
              match getProp parsed "sources" with
              | .error _ => .serverError
              | .ok srcs =>
                  if ¬ (isArray srcs = true) then .invalidShape parsed
                  else
                    .valid (match a with | .str sa => sa | _ => "")
                      (match srcs with | .arr xs => xs | _ => [])

/-- A `used_contexts` entry of the success and `model_response_not_json`
responses (lines 105 and 126): `{doc, chunkIndex, score, reRankScore}`. -/
def usedContextFull (c : Cand) : JVal :=
  .obj [("doc", .str c.doc), ("chunkIndex", .jnum (num c.chunkIndex)),
        ("score", .jnum c.score),
        ("reRankScore", match c.reRankScore with
                        | some v => .jnum v
                        | none => .undefined)]

/-- A `used_contexts` entry of the `invalid_model_json_shape` response
(line 116): `{doc, chunkIndex, score}` — no `reRankScore`. -/
def usedContextShort (c : Cand) : JVal :=
  .obj [("doc", .str c.doc), ("chunkIndex", .jnum (num c.chunkIndex)),
        ("score", .jnum c.score)]

/-- The `model_response_not_json` response body (lines 101-107). -/
def notJsonResponse (raw err : String) (cands : List Cand) (lat : ℚ) : JVal :=
  .obj [("error", .str "model_response_not_json"), ("raw", .str raw),
        ("parseError", .str err),
        ("used_contexts", .arr (cands.map usedContextFull)),
        ("latency_ms", .jnum (num lat))]

/-- The `invalid_model_json_shape` response body (lines 113-118). -/
def invalidShapeResponse (parsed : JVal) (cands : List Cand) (lat : ℚ) : JVal :=
  .obj [("error", .str "invalid_model_json_shape"), ("parsed", parsed),
        ("used_contexts", .arr (cands.map usedContextShort)),
        ("latency_ms", .jnum (num lat))]

/-- The success response body (lines 123-128). -/
def successResponse (answer : String) (sources : List JVal)
    (cands : List Cand) (lat : ℚ) : JVal :=
  .obj [("answer", .str answer), ("sources", .arr sources),
        ("used_contexts", .arr (cands.map usedContextFull)),
        ("latency_ms", .jnum (num lat))]

/-- The keys of an object value, in order. -/
def objKeys : JVal → List String
  | .obj fields => fields.map Prod.fst
  | _ => []

/-- An external provider invocation made by the handler: the embeddings
call (line 26) with the question, or the generation call (line 71) whose
prompt is built from the question and the rendered context (the constant
instruction text is omitted from the model — no claim depends on it). -/
inductive ProviderCall where
  | embeddings (input : String)
  | generation (question : String) (contextText : String)
deriving DecidableEq, Repr

/-- The rendered context blocks (lines 64-66). -/
def contextText (cands : List Cand) : String :=
  String.intercalate "\n" (cands.enum.map (fun ic =>
    "[[" ++ toString ic.1 ++ "]] DOC: " ++ ic.2.doc ++ "#" ++
      toString ic.2.chunkIndex ++ "\n" ++ ic.2.text ++ "\n---\n"))

/-- Everything the handler consumes from its environment: configuration,
the loaded collection, and the two model providers plus the JSON parser as
opaque deterministic functions. -/
structure AskEnv where
  sqrtm : ℚ → ℚ
  vectors : List VRec
  topKn : ℕ
  threshold : ℚ
  embedFn : String → List ℚ
  genFn : String → String → String
  parseFn : String → Except String JVal
  latency : ℚ

/-- The string payload of a validated question (validation guarantees the
value is a string). -/
def questionString : JVal → String
  | .str s => s
  | _ => ""

/-- The `/ask` handler (lines 16-134) as a function from the request body to
the response body plus the sequence of external provider calls it made:
validate, embed, retrieve, boost/filter/re-rank, generate, then classify the
model output and build the corresponding response. -/
def askHandler (env : AskEnv) (body : JVal) : JVal × List ProviderCall :=
  let q := optProp body "question"
  match validateQuestion q with
  | some e => (.obj [("error", .str e)], [])
  | none =>
      let qs := questionString q
      let qEmb := env.embedFn qs
      let rawContexts := topK env.sqrtm env.vectors qEmb env.topKn
      let cands := rank qs env.threshold rawContexts
      let rawOut := trimJS (env.genFn qs (contextText cands))
      let calls := [ProviderCall.embeddings qs,
                    ProviderCall.generation qs (contextText cands)]
      match classifyModelOutput (env.parseFn rawOut) rawOut with
      | .notJson raw e => (notJsonResponse raw e cands env.latency, calls)
      | .invalidShape p => (invalidShapeResponse p cands env.latency, calls)
      | .valid a srcs => (successResponse a srcs cands env.latency, calls)
      | .serverError =>
          (.obj [("error", .str "server_error"),
                 ("details", .str "TypeError")], calls)

/-! ### Concrete fixtures for witnesses and counterexamples -/

/-- A candidate with the given document and score and no re-rank score. -/
def mkCand (d : String) (s : ℚ) : Cand :=
  { score := num s, id := d, doc := d, chunkIndex := 0, text := "",
    reRankScore := none }

/-- Raw top-K list for the threshold-fallback counterexample: every score is
below the 0.2 threshold, documents a, b, a. -/
def rawFallback : List Cand :=
  [mkCand "a" (0.19 : ℚ), mkCand "b" (0.185 : ℚ), mkCand "a" (0.18 : ℚ)]

/-- Raw top-K list for the boost-presence counterexample: the mentioned
document has cosine score −0.9, far below threshold even after the 0.6
boost. -/
def rawMention : List Cand :=
  [mkCand "b" (0.5 : ℚ), mkCand "a.txt" (-0.9 : ℚ)]

/-- Raw top-K list for the idempotence counterexample: re-applying the
ranking boosts a.txt a second time. -/
def rawIdem : List Cand :=
  [mkCand "b" (0.9 : ℚ), mkCand "a.txt" (0.2 : ℚ)]

/-- Raw top-K list containing a NaN-scored candidate (as produced by a
zero-norm stored embedding) next to a below-threshold one. -/
def rawNan : List Cand :=
  [{ mkCand "a" 0 with score := nan }, mkCand "b" (0.1 : ℚ)]

/-- The doc-frequency example of the spec: docs A, A, B with raw scores
0.5, 0.4, 0.45. -/
def rawAAB : List Cand :=
  [mkCand "A" (0.5 : ℚ), mkCand "A" (0.4 : ℚ), mkCand "B" (0.45 : ℚ)]

/-- A two-record store whose first embedding has zero norm. -/
def storeZeroFirst : List VRec :=
  [{ id := "z#0", doc := "z.txt", chunkIndex := 0, text := "z",
     embedding := [0] },
   { id := "w#0", doc := "w.txt", chunkIndex := 0, text := "w",
     embedding := [1] }]

/-- The NaN-scored candidate as it appears in the ranked output of
`rawNan` (score NaN, re-rank score NaN). -/
def nanRanked : Cand :=
  { mkCand "a" 0 with score := nan, reRankScore := some nan }

/-- A two-record store of unit embeddings: all scores are the number 1. -/
def storeUnit : List VRec :=
  [{ id := "u#0", doc := "u.txt", chunkIndex := 0, text := "u",
     embedding := [1] },
   { id := "v#0", doc := "v.txt", chunkIndex := 0, text := "v",
     embedding := [1] }]

/-- The unit store loaded onto the heap. -/
def heapW : List HVal := storeUnit.map HVal.vrec

/-- A concrete environment for the handler witnesses: the unit store,
defaults `TOP_K = 5` and threshold 0.2, and provider stubs. -/
def envW : AskEnv :=
  { sqrtm := sqrtModel, vectors := storeUnit, topKn := 5,
    threshold := (0.2 : ℚ), embedFn := fun _ => [1],
    genFn := fun _ _ => "out", parseFn := fun _ => .error "SyntaxError",
    latency := 0 }

/-! ### General lemmas about the JS number model and the stable sort -/

namespace JNum

@[simp] theorem jadd_num_num (a b : ℚ) : jadd (num a) (num b) = num (a + b) := rfl
@[simp] theorem jadd_nan_left (x : JNum) : jadd nan x = nan := by cases x <;> rfl
@[simp] theorem jsub_num_num (a b : ℚ) : jsub (num a) (num b) = num (a - b) := rfl
@[simp] theorem jge_nan_left (x : JNum) : jge nan x = false := by cases x <;> rfl
@[simp] theorem jge_nan_right (x : JNum) : jge x nan = false := by cases x <;> rfl

theorem jadd_nan_right (x : JNum) : jadd x nan = nan := by cases x <;> rfl

/-- The comparator antisymmetry the stable-sort invariant needs:
if the comparator strictly prefers `x` over `b` then it does not strictly
prefer `b` over `x`. -/
theorem cmpQ_jsub_antisymm {x b : JNum} (h : 0 < cmpQ (jsub x b)) :
    cmpQ (jsub b x) ≤ 0 := by
  cases x <;> cases b <;> simp_all [jsub, cmpQ] <;> linarith

/-- Quasi-transitivity of the comparator through a strict preference:
if `x` strictly beats `b` and `c` does not strictly beat `b`, then `c` does
not strictly beat `x`.  Holds for every JS number, including NaN (whose
comparisons all collapse to 0). -/
theorem cmpQ_jsub_trans {x b c : JNum} (h1 : 0 < cmpQ (jsub x b))
    (h2 : cmpQ (jsub c b) ≤ 0) : cmpQ (jsub c x) ≤ 0 := by
  cases x <;> cases b <;> cases c <;> simp_all [jsub, cmpQ] <;> linarith

end JNum

theorem sortInsert_perm (key : α → JNum) (x : α) (l : List α) :
    (sortInsert key x l).Perm (x :: l) := by
  induction l with
  | nil => simp [sortInsert]
  | cons b bs ih =>
      by_cases h : cmpQ (jsub (key x) (key b)) ≤ 0
      · simp only [sortInsert, if_pos h]
        exact ((ih.cons b).trans (List.Perm.swap x b bs)).symm.symm
      · simp [sortInsert, if_neg h]

theorem jsSort_perm_aux (key : α → JNum) :
    ∀ (rest acc : List α),
      (rest.foldl (fun acc x => sortInsert key x acc) acc).Perm (acc ++ rest) := by
  intro rest
  induction rest with
  | nil => intro acc; simp
  | cons x rs ih =>
      intro acc
      have h1 := ih (sortInsert key x acc)
      have h2 : (sortInsert key x acc ++ rs).Perm (acc ++ x :: rs) := by
        have := (sortInsert_perm key x acc).append_right rs
        exact this.trans List.perm_middle.symm
      simpa using h1.trans h2

/-- The sort permutes its input. -/
theorem jsSort_perm (key : α → JNum) (l : List α) : (jsSort key l).Perm l := by
  simpa using jsSort_perm_aux key l []

theorem jsSort_length (key : α → JNum) (l : List α) :
    (jsSort key l).length = l.length :=
  (jsSort_perm key l).length_eq

theorem mem_jsSort (key : α → JNum) {l : List α} {a : α} :
    a ∈ jsSort key l ↔ a ∈ l :=
  (jsSort_perm key l).mem_iff

/-- If the comparator lets `x` go after every element of `l`, insertion
appends it at the end. -/
theorem sortInsert_eq_append (key : α → JNum) (x : α) (l : List α)
    (h : ∀ b ∈ l, CmpLE key b x) : sortInsert key x l = l ++ [x] := by
  induction l with
  | nil => rfl
  | cons b bs ih =>
      have hb : cmpQ (jsub (key x) (key b)) ≤ 0 := h b (by simp)
      simp only [sortInsert, if_pos hb]
      rw [ih (fun c hc => h c (by simp [hc]))]
      simp

/-- Inserting preserves the pairwise invariant. -/
theorem pairwise_sortInsert (key : α → JNum) (x : α) (l : List α)
    (hl : l.Pairwise (CmpLE key)) :
    (sortInsert key x l).Pairwise (CmpLE key) := by
  induction l with
  | nil => simp [sortInsert, CmpLE]
  | cons b bs ih =>
      rcases List.pairwise_cons.mp hl with ⟨hb, hbs⟩
      by_cases h : cmpQ (jsub (key x) (key b)) ≤ 0
      · simp only [sortInsert, if_pos h]
        refine List.pairwise_cons.mpr ⟨?_, ih hbs⟩
        intro y hy
        rcases List.mem_cons.mp ((sortInsert_perm key x bs).mem_iff.mp hy) with
          hy1 | hy1
        · subst hy1; exact h
        · exact hb y hy1
      · simp only [sortInsert, if_neg h]
        push_neg at h
        refine List.pairwise_cons.mpr ⟨?_, hl⟩
        intro y hy
        rcases List.mem_cons.mp hy with hy1 | hy1
        · subst hy1; exact cmpQ_jsub_antisymm h
        · exact cmpQ_jsub_trans h (hb y hy1)

theorem pairwise_jsSort_aux (key : α → JNum) :
    ∀ (rest acc : List α), acc.Pairwise (CmpLE key) →
      (rest.foldl (fun acc x => sortInsert key x acc) acc).Pairwise (CmpLE key) := by
  intro rest
  induction rest with
  | nil => intro acc h; simpa using h
  | cons x rs ih =>
      intro acc h
      exact ih (sortInsert key x acc) (pairwise_sortInsert key x acc h)

/-- Every output of the sort satisfies the pairwise invariant: no later
element is strictly preferred by the comparator over an earlier one. -/
theorem pairwise_jsSort (key : α → JNum) (l : List α) :
    (jsSort key l).Pairwise (CmpLE key) :=
  pairwise_jsSort_aux key l [] (by simp)

/-- On lists whose keys are all genuine numbers, the pairwise invariant is
exactly "sorted by non-increasing key" in the IEEE `>=` sense. -/
theorem pairwise_jge_of_cmpLE (key : α → JNum) {l : List α}
    (hp : l.Pairwise (CmpLE key)) (hnum : ∀ a ∈ l, (key a).isNum = true) :
    l.Pairwise (fun a b => jge (key a) (key b) = true) := by
  refine List.Pairwise.imp_of_mem ?_ hp
  intro a b ha hb hab
  have hka := hnum a ha
  have hkb := hnum b hb
  unfold CmpLE at hab
  cases hea : key a with
  | num qa =>
      cases heb : key b with
      | num qb =>
          rw [hea, heb] at hab
          simp only [jsub, cmpQ] at hab
          simp only [jge, jle]
          simpa using by linarith
      | nan => rw [heb] at hkb; simp [isNum] at hkb
      | inf => rw [heb] at hkb; simp [isNum] at hkb
      | ninf => rw [heb] at hkb; simp [isNum] at hkb
  | nan => rw [hea] at hka; simp [isNum] at hka
  | inf => rw [hea] at hka; simp [isNum] at hka
  | ninf => rw [hea] at hka; simp [isNum] at hka

/-- Sortedness (non-increasing keys) of the sort output when every key is a
genuine number. -/
theorem jsSort_sorted (key : α → JNum) (l : List α)
    (hnum : ∀ a ∈ l, (key a).isNum = true) :
    (jsSort key l).Pairwise (fun a b => jge (key a) (key b) = true) :=
  pairwise_jge_of_cmpLE key (pairwise_jsSort key l)
    (fun a ha => hnum a ((jsSort_perm key l).mem_iff.mp ha))

/-- A sort of an already pairwise-ordered list is the identity (stability /
idempotence core). -/
theorem jsSort_eq_self_aux (key : α → JNum) :
    ∀ (rest acc : List α), (acc ++ rest).Pairwise (CmpLE key) →
      rest.foldl (fun acc x => sortInsert key x acc) acc = acc ++ rest := by
  intro rest
  induction rest with
  | nil => intro acc _; simp
  | cons x rs ih =>
      intro acc h
      have hx : ∀ b ∈ acc, CmpLE key b x := by
        intro b hb
        have := (List.pairwise_append.mp h).2.2
        exact this b hb x (by simp)
      have hins : sortInsert key x acc = acc ++ [x] :=
        sortInsert_eq_append key x acc hx
      have h' : ((acc ++ [x]) ++ rs).Pairwise (CmpLE key) := by
        simpa using h
      calc (x :: rs).foldl (fun acc x => sortInsert key x acc) acc
          = rs.foldl (fun acc x => sortInsert key x acc) (acc ++ [x]) := by
            simp [List.foldl_cons, hins]
        _ = (acc ++ [x]) ++ rs := ih (acc ++ [x]) h'
        _ = acc ++ x :: rs := by simp

/-- Sorting a list already in comparator order changes nothing. -/
theorem jsSort_eq_self (key : α → JNum) (l : List α)
    (h : l.Pairwise (CmpLE key)) : jsSort key l = l := by
  simpa using jsSort_eq_self_aux key l [] (by simpa using h)

theorem cmpQ_jsub_self (k : JNum) : cmpQ (jsub k k) = 0 := by
  cases k <;> simp [jsub, cmpQ]

/-- Inserting an element that does not satisfy `p` leaves the `p`-sublist
untouched. -/
theorem filter_sortInsert_neg (key : α → JNum) (p : α → Bool) (x : α)
    (l : List α) (hx : p x = false) :
    (sortInsert key x l).filter p = l.filter p := by
  induction l with
  | nil => simp [sortInsert, hx]
  | cons b bs ih =>
      by_cases h : cmpQ (jsub (key x) (key b)) ≤ 0
      · simp only [sortInsert, if_pos h, List.filter_cons]
        rw [ih]
      · simp [sortInsert, if_neg h, List.filter_cons, hx]

/-- Inserting an element of the `p`-class into a pairwise-ordered list puts
it after every other element of the class (stability core).  `hp` says that
all members of the class carry the same key. -/
theorem filter_sortInsert_pos (key : α → JNum) (p : α → Bool) (x : α)
    (l : List α) (hx : p x = true)
    (hp : ∀ a b, p a = true → p b = true → key a = key b)
    (hl : l.Pairwise (CmpLE key)) :
    (sortInsert key x l).filter p = l.filter p ++ [x] := by
  induction l with
  | nil => simp [sortInsert, hx]
  | cons b bs ih =>
      rcases List.pairwise_cons.mp hl with ⟨hb, hbs⟩
      by_cases h : cmpQ (jsub (key x) (key b)) ≤ 0
      · simp only [sortInsert, if_pos h, List.filter_cons]
        rw [ih hbs]
        by_cases hpb : p b = true
        · simp [hpb]
        · simp [show p b = false by simpa using hpb]
      · push_neg at h
        have hnone : ∀ y ∈ b :: bs, p y = false := by
          intro y hy
          by_contra hpy
          have hpy' : p y = true := by simpa using hpy
          have hkey : key y = key x := hp y x hpy' hx
          rcases List.mem_cons.mp hy with hy1 | hy1
          · subst hy1
            rw [hkey] at h
            rw [cmpQ_jsub_self] at h
            exact lt_irrefl 0 h
          · have := hb y hy1
            unfold CmpLE at this
            rw [hkey] at this
            exact absurd h (not_lt.mpr this)
        have hfb : (b :: bs).filter p = [] := List.filter_eq_nil_iff.mpr
          (fun y hy => by simp [hnone y hy])
        simp only [sortInsert, if_neg (not_le.mpr h)]
        rw [List.filter_cons_of_pos (by simp [hx]), hfb]
        simp

theorem filter_jsSort_aux (key : α → JNum) (p : α → Bool)
    (hp : ∀ a b, p a = true → p b = true → key a = key b) :
    ∀ (rest acc : List α), acc.Pairwise (CmpLE key) →
      (rest.foldl (fun acc x => sortInsert key x acc) acc).filter p =
        acc.filter p ++ rest.filter p := by
  intro rest
  induction rest with
  | nil => intro acc _; simp
  | cons x rs ih =>
      intro acc hacc
      have hstep := ih (sortInsert key x acc) (pairwise_sortInsert key x acc hacc)
      rw [List.foldl_cons, hstep]
      by_cases hx : p x = true
      · rw [filter_sortInsert_pos key p x acc hx hp hacc]
        rw [List.filter_cons_of_pos (by simp [hx])]
        simp
      · have hx' : p x = false := by simpa using hx
        rw [filter_sortInsert_neg key p x acc hx']
        rw [List.filter_cons_of_neg (by simp [hx'])]

/-- Stability of the sort: the sublist of elements sharing one key value is
preserved in its original relative order. -/
theorem filter_jsSort (key : α → JNum) (p : α → Bool)
    (hp : ∀ a b, p a = true → p b = true → key a = key b) (l : List α) :
    (jsSort key l).filter p = l.filter p := by
  simpa using filter_jsSort_aux key p hp l [] (by simp)

/-- Sorting twice is the same as sorting once. -/
theorem jsSort_idem (key : α → JNum) (l : List α) :
    jsSort key (jsSort key l) = jsSort key l :=
  jsSort_eq_self key (jsSort key l) (pairwise_jsSort key l)

/-! ### Lemmas about the ranking passes -/

theorem map_eq_self_of {f : α → α} {l : List α} (h : ∀ a ∈ l, f a = a) :
    l.map f = l := by
  induction l with
  | nil => rfl
  | cons a as ih =>
      simp only [List.map_cons, h a (by simp)]
      rw [ih (fun b hb => h b (by simp [hb]))]

/-- If the question has no filename-like token, or no candidate's `doc`
matches it, the boost pass changes nothing. -/
theorem boostPass_eq_self {q : String} {cs : List Cand}
    (h : ∀ m, scanFileMention q.data = some m →
        ∀ c ∈ cs, ¬(c.doc ≠ "" ∧ lowerStr c.doc.data = lowerStr m)) :
    boostPass q cs = cs := by
  unfold boostPass
  cases hscan : scanFileMention q.data with
  | none => rfl
  | some m =>
      exact map_eq_self_of (fun c hc => if_neg (h m hscan c hc))

theorem boostPass_length (q : String) (cs : List Cand) :
    (boostPass q cs).length = cs.length := by
  unfold boostPass
  cases scanFileMention q.data <;> simp

/-- Every survivor is drawn from the boosted raw list. -/
theorem survivors_subset (q : String) (t : ℚ) (cs : List Cand) :
    ∀ c ∈ survivors q t cs, c ∈ boostPass q cs := by
  intro c hc
  unfold survivors at hc
  by_cases h : (thresholdFilter t (boostPass q cs)).length = 0
  · rw [if_pos h] at hc
    exact (List.take_sublist _ _).subset hc
  · rw [if_neg h] at hc
    exact List.mem_filter.mp hc |>.1

/-- Membership in the boosted list descends to the raw list up to the score
field (all other fields are preserved by the boost). -/
theorem mem_boostPass (q : String) (cs : List Cand) :
    ∀ c ∈ boostPass q cs, ∃ c₀ ∈ cs,
      c.doc = c₀.doc ∧ c.id = c₀.id ∧ c.chunkIndex = c₀.chunkIndex ∧
      c.text = c₀.text ∧ c.reRankScore = c₀.reRankScore := by
  intro c hc
  unfold boostPass at hc
  cases hscan : scanFileMention q.data with
  | none =>
      rw [hscan] at hc
      exact ⟨c, hc, rfl, rfl, rfl, rfl, rfl⟩
  | some m =>
      rw [hscan] at hc
      rcases List.mem_map.mp hc with ⟨c₀, hc₀, hfc⟩
      refine ⟨c₀, hc₀, ?_⟩
      by_cases hcond : c₀.doc ≠ "" ∧ lowerStr c₀.doc.data = lowerStr m
      · rw [if_pos hcond] at hfc
        subst hfc; exact ⟨rfl, rfl, rfl, rfl, rfl⟩
      · rw [if_neg hcond] at hfc
        subst hfc; exact ⟨rfl, rfl, rfl, rfl, rfl⟩

/-- Decomposition of a ranked candidate: it is a survivor with the re-rank
score attached, all other fields unchanged. -/
theorem mem_rank (q : String) (t : ℚ) (cs : List Cand) :
    ∀ c ∈ rank q t cs, ∃ c₀ ∈ survivors q t cs,
      c = { c₀ with reRankScore := some (jadd c₀.score
              (num ((0.02 : ℚ) * ((docCount (survivors q t cs) c₀.doc : ℚ) - 1)))) } := by
  intro c hc
  unfold rank at hc
  rcases List.mem_map.mp ((mem_jsSort rrKey).mp hc) with ⟨c₀, hc₀, hfc⟩
  exact ⟨c₀, hc₀, hfc.symm⟩

theorem docCount_reRankPass (cs : List Cand) (d : String) :
    docCount (reRankPass cs) d = docCount cs d := by
  unfold docCount reRankPass
  rw [List.countP_map]
  rfl

theorem docCount_jsSort (key : Cand → JNum) (cs : List Cand) (d : String) :
    docCount (jsSort key cs) d = docCount cs d := by
  unfold docCount
  exact (jsSort_perm key cs).countP_eq _

theorem docCount_rank (q : String) (t : ℚ) (cs : List Cand) (d : String) :
    docCount (rank q t cs) d = docCount (survivors q t cs) d := by
  unfold rank
  rw [docCount_jsSort, docCount_reRankPass]

theorem reRankPass_length (cs : List Cand) :
    (reRankPass cs).length = cs.length := by
  unfold reRankPass; simp

theorem rank_length (q : String) (t : ℚ) (cs : List Cand) :
    (rank q t cs).length = (survivors q t cs).length := by
  unfold rank
  rw [jsSort_length, reRankPass_length]

/-- Re-applying the re-rank map to a (sorted) re-ranked list is the
identity: the recomputed `reRankScore` coincides with the stored one because
per-document counts are invariant under the sort. -/
theorem reRankPass_fix (S : List Cand) :
    reRankPass (jsSort rrKey (reRankPass S)) = jsSort rrKey (reRankPass S) := by
  apply map_eq_self_of
  intro c hc
  rcases List.mem_map.mp ((mem_jsSort rrKey).mp hc) with ⟨c₀, hc₀, hfc⟩
  have hdc : docCount (jsSort rrKey (reRankPass S)) c.doc = docCount S c.doc := by
    rw [docCount_jsSort, docCount_reRankPass]
  rw [hdc]
  subst hfc
  cases c₀
  rfl

/-- If the survivor pass fixes an already-ranked list, the whole ranking
pass fixes it. -/
theorem rank_of_fixpoint (q : String) (t : ℚ) (S : List Cand)
    (hsur : survivors q t (jsSort rrKey (reRankPass S)) =
      jsSort rrKey (reRankPass S)) :
    rank q t (jsSort rrKey (reRankPass S)) = jsSort rrKey (reRankPass S) := by
  unfold rank
  rw [hsur, reRankPass_fix, jsSort_idem]

/-! ### Claim theorems -/

/-- C2 (counterexample): with raw top-K entries scoring 0.19, 0.185, 0.18
(docs a, b, a), all below the 0.20 threshold, the fallback fires but the
final output is NOT the first three raw entries in their original order —
the doc-frequency re-rank moves the second `a` chunk ahead of `b`. -/
theorem C2_counterexample :
    ((boostPass "q" rawFallback).all
        (fun c => !(jge c.score (num (0.2 : ℚ))))) = true ∧
    rawFallback ≠ [] ∧
    (rank "q" (0.2 : ℚ) rawFallback).map stripRR ≠
      rawFallback.take (min 3 rawFallback.length) := by with_unfolding_all decide

/-- C2 (amended): if every (boosted) raw candidate scores below the
threshold, the final output is non-empty and consists of exactly the first
`min(3, rawCandidates.length)` raw top-K entries — re-ordered by the
doc-frequency re-rank rather than kept in original top-K order. -/
theorem C2_threshold_fallback (q : String) (t : ℚ) (cs : List Cand)
    (hne : cs ≠ [])
    (hall : ∀ c ∈ boostPass q cs, jge c.score (num t) = false) :
    rank q t cs ≠ [] ∧
    ((rank q t cs).map stripRR).Perm
      (((boostPass q cs).take (min 3 cs.length)).map stripRR) := by
  have hfil : thresholdFilter t (boostPass q cs) = [] := by
    unfold thresholdFilter
    exact List.filter_eq_nil_iff.mpr (fun c hc => by simp [hall c hc])
  have hsurv : survivors q t cs =
      (boostPass q cs).take (min 3 cs.length) := by
    unfold survivors
    rw [hfil]
    simp [boostPass_length]
  constructor
  · have hlen : (rank q t cs).length = min 3 cs.length := by
      rw [rank_length, hsurv, List.length_take, boostPass_length]
      omega
    intro hnil
    rw [hnil] at hlen
    have : 1 ≤ cs.length := by
      cases cs with
      | nil => exact absurd rfl hne
      | cons a as => simp
    simp at hlen
    omega
  · have hperm : (rank q t cs).Perm (reRankPass (survivors q t cs)) := by
      unfold rank
      exact jsSort_perm _ _
    have hmapped := hperm.map stripRR
    have hrr : (reRankPass (survivors q t cs)).map stripRR =
        (survivors q t cs).map stripRR := by
      unfold reRankPass
      rw [List.map_map]
      rfl
    rw [hrr, hsurv] at hmapped
    exact hmapped

/-- C2 (witness for the amended theorem): the fallback instance above is
non-empty and a permutation of the first three raw entries. -/
theorem C2_threshold_fallback_witness :
    rank "q" (0.2 : ℚ) rawFallback ≠ [] ∧
    ((rank "q" (0.2 : ℚ) rawFallback).map stripRR).Perm
      (((boostPass "q" rawFallback).take (min 3 rawFallback.length)).map stripRR) :=
  C2_threshold_fallback "q" (0.2 : ℚ) rawFallback (by with_unfolding_all decide)
    (by with_unfolding_all decide)

/-- C3 (counterexample): the question mentions `a.txt` and a raw top-K
candidate has `doc = "a.txt"`, but its pre-boost score −0.9 stays below the
0.20 threshold even after the 0.6 boost, another candidate survives, so the
mentioned candidate is absent from the final output — refuting "present in
the final output whenever it was in the raw top-K". -/
theorem C3_counterexample :
    (scanFileMention "see a.txt".data).map (fun l => String.mk (lowerStr l)) =
      some "a.txt" ∧
    rawMention.map Cand.doc = ["b", "a.txt"] ∧
    (rank "see a.txt" (0.2 : ℚ) rawMention).map Cand.doc = ["b"] := by with_unfolding_all decide

/-- C3 (amended): when the question contains a filename-like token, the
first such token is the boost key; every raw candidate whose `doc` matches
it case-insensitively (and is non-empty) gets exactly 0.6 added to its
score, in place, and every other candidate is untouched; such a candidate is
present in the final output provided its boosted score meets the threshold
(equivalently, its pre-boost score is at least threshold − 0.6). -/
theorem C3_filename_boost (q : String) (t : ℚ) (cs : List Cand)
    (m : List Char) (hm : scanFileMention q.data = some m) :
    (∀ i : ℕ, ∀ c : Cand, cs[i]? = some c →
        (boostPass q cs)[i]? = some (
          if c.doc ≠ "" ∧ lowerStr c.doc.data = lowerStr m then
            { c with score := jadd c.score (num (0.6 : ℚ)) }
          else c)) ∧
    (∀ c ∈ cs, c.doc ≠ "" → lowerStr c.doc.data = lowerStr m →
        jge (jadd c.score (num (0.6 : ℚ))) (num t) = true →
        ∃ c2 ∈ rank q t cs,
          stripRR c2 = stripRR { c with score := jadd c.score (num (0.6 : ℚ)) }) := by
  constructor
  · intro i c hc
    unfold boostPass
    rw [hm]
    rw [List.getElem?_map, hc]
    rfl
  · intro c hc hdoc hmatch hth
    set b := { c with score := jadd c.score (num (0.6 : ℚ)) } with hb
    have hbmem : b ∈ boostPass q cs := by
      unfold boostPass
      rw [hm]
      refine List.mem_map.mpr ⟨c, hc, ?_⟩
      rw [if_pos ⟨hdoc, hmatch⟩]
    have hfmem : b ∈ thresholdFilter t (boostPass q cs) := by
      unfold thresholdFilter
      refine List.mem_filter.mpr ⟨hbmem, ?_⟩
      simpa [hb] using hth
    have hfne : (thresholdFilter t (boostPass q cs)).length ≠ 0 := by
      intro hlen
      rw [List.length_eq_zero] at hlen
      rw [hlen] at hfmem
      exact absurd hfmem (List.not_mem_nil b)
    have hsmem : b ∈ survivors q t cs := by
      unfold survivors
      rw [if_neg hfne]
      exact hfmem
    refine ⟨{ b with reRankScore := some (jadd b.score
        (num ((0.02 : ℚ) * ((docCount (survivors q t cs) b.doc : ℚ) - 1)))) },
      ?_, rfl⟩
    unfold rank
    refine (mem_jsSort rrKey).mpr ?_
    unfold reRankPass
    exact List.mem_map.mpr ⟨b, hsmem, rfl⟩

/-- C3 (witness for the amended theorem): in the idempotence fixture the
mentioned candidate (`a.txt`, raw score 0.2) is boosted to 0.8 and survives
into the final output. -/
theorem C3_filename_boost_witness :
    ((boostPass "see a.txt" rawIdem)[1]? = some
      { mkCand "a.txt" (0.2 : ℚ) with
          score := jadd (num (0.2 : ℚ)) (num (0.6 : ℚ)) }) ∧
    (∃ c2 ∈ rank "see a.txt" (0.2 : ℚ) rawIdem,
      stripRR c2 = stripRR { mkCand "a.txt" (0.2 : ℚ) with
          score := jadd (num (0.2 : ℚ)) (num (0.6 : ℚ)) }) := by
  have h := C3_filename_boost "see a.txt" (0.2 : ℚ) rawIdem
    ("a.txt".data) (by with_unfolding_all decide)
  refine ⟨?_, ?_⟩
  · have := h.1 1 (mkCand "a.txt" (0.2 : ℚ)) (by with_unfolding_all decide)
    rw [this]
    with_unfolding_all decide
  · exact h.2 (mkCand "a.txt" (0.2 : ℚ)) (by with_unfolding_all decide) (by with_unfolding_all decide) (by with_unfolding_all decide)
      (by with_unfolding_all decide)

/-- C4 (counterexample): a NaN-scored candidate can survive through the
fallback path; its re-rank score is NaN and the final output is then not
ordered by non-increasing `reRankScore` (NaN compares false). -/
theorem C4_counterexample :
    (rank "q" (0.2 : ℚ) rawNan).map Cand.reRankScore =
      [some nan, some (num (0.1 : ℚ))] ∧
    ¬ (rank "q" (0.2 : ℚ) rawNan).Pairwise
        (fun a b => jge (rrKey a) (rrKey b) = true) := by with_unfolding_all decide

/-- C4 (amended): every ranked candidate's `reRankScore` equals its score
plus 0.02·(candidates sharing its doc − 1); the output is ordered by
non-increasing `reRankScore` provided no surviving re-rank score is NaN;
ties keep the pre-sort relative order; and the spec's A/A/B example yields
re-rank scores 0.52, 0.42, 0.45 and final order A(0.52), B(0.45), A(0.42). -/
theorem C4_doc_frequency_rerank (q : String) (t : ℚ) (cs : List Cand) :
    (∀ c ∈ rank q t cs, c.reRankScore =
        some (jadd c.score
          (num ((0.02 : ℚ) * ((docCount (rank q t cs) c.doc : ℚ) - 1))))) ∧
    ((∀ c ∈ rank q t cs, (rrKey c).isNum = true) →
        (rank q t cs).Pairwise (fun a b => jge (rrKey a) (rrKey b) = true)) ∧
    (∀ v : JNum, (rank q t cs).filter (fun c => rrKey c == v) =
        (reRankPass (survivors q t cs)).filter (fun c => rrKey c == v)) ∧
    ((rank "question" (0.2 : ℚ) rawAAB).map (fun c => (c.doc, c.reRankScore)) =
        [("A", some (num (0.52 : ℚ))), ("B", some (num (0.45 : ℚ))),
         ("A", some (num (0.42 : ℚ)))]) := by
  refine ⟨?_, ?_, ?_, by with_unfolding_all decide⟩
  · intro c hc
    rcases mem_rank q t cs c hc with ⟨c₀, hc₀, rfl⟩
    rw [docCount_rank]
  · intro hnum
    unfold rank
    exact jsSort_sorted rrKey (reRankPass (survivors q t cs))
      (fun a ha => hnum a ((mem_jsSort rrKey).mpr ha))
  · intro v
    unfold rank
    exact filter_jsSort rrKey (fun c => rrKey c == v)
      (fun a b ha hb => by
        have ha' := beq_iff_eq.mp ha
        have hb' := beq_iff_eq.mp hb
        rw [ha', hb']) _

/-- C4 (witness): the A/A/B instance is sorted by non-increasing re-rank
score and computes the example values. -/
theorem C4_doc_frequency_rerank_witness :
    ((rank "question" (0.2 : ℚ) rawAAB).Pairwise
        (fun a b => jge (rrKey a) (rrKey b) = true)) ∧
    ((rank "question" (0.2 : ℚ) rawAAB).map (fun c => (c.doc, c.reRankScore)) =
        [("A", some (num (0.52 : ℚ))), ("B", some (num (0.45 : ℚ))),
         ("A", some (num (0.42 : ℚ)))]) :=
  ⟨(C4_doc_frequency_rerank "question" (0.2 : ℚ) rawAAB).2.1 (by with_unfolding_all decide),
   (C4_doc_frequency_rerank "question" (0.2 : ℚ) rawAAB).2.2.2⟩

/-- C6 (counterexample): re-ranking an already-ranked list is NOT a no-op on
ordering when the question mentions a filename matching a candidate: the 0.6
boost is applied a second time, and `a.txt` (first-pass score 0.8, second
pass 1.4) overtakes `b` (0.9). -/
theorem C6_counterexample :
    (rank "see a.txt" (0.2 : ℚ)
        (rank "see a.txt" (0.2 : ℚ) rawIdem)).map Cand.doc ≠
      (rank "see a.txt" (0.2 : ℚ) rawIdem).map Cand.doc := by with_unfolding_all decide

/-- C6 (amended): re-ranking an already-ranked sequence with the same
question and options is the identity provided the question's filename token
(if any) matches none of the candidates' documents, so that the in-place
boost cannot fire a second time. -/
theorem C6_rank_idempotent (q : String) (t : ℚ) (cs : List Cand)
    (h : ∀ m, scanFileMention q.data = some m →
        ∀ c ∈ cs, ¬(c.doc ≠ "" ∧ lowerStr c.doc.data = lowerStr m)) :
    rank q t (rank q t cs) = rank q t cs := by
  have hb : boostPass q cs = cs := boostPass_eq_self h
  have hout : ∀ c ∈ rank q t cs, ∃ c₀ ∈ cs, c.doc = c₀.doc := by
    intro c hc
    rcases mem_rank q t cs c hc with ⟨c₀, hc₀, rfl⟩
    have hcs : c₀ ∈ cs := by
      rw [← hb]
      exact survivors_subset q t cs c₀ hc₀
    exact ⟨c₀, hcs, rfl⟩
  have hbout : boostPass q (rank q t cs) = rank q t cs := by
    apply boostPass_eq_self
    intro m hm c hc
    rcases hout c hc with ⟨c₀, hc₀, hdoc⟩
    have := h m hm c₀ hc₀
    rw [hdoc]
    exact this
  by_cases hfil : thresholdFilter t cs = []
  · -- fallback case: survivors are the first min(3, n) raw entries
    have hsurv : survivors q t cs = cs.take (min 3 cs.length) := by
      unfold survivors
      rw [hb, hfil]
      simp
    have hrank : rank q t cs =
        jsSort rrKey (reRankPass (cs.take (min 3 cs.length))) := by
      unfold rank
      rw [hsurv]
    have hscore : ∀ c ∈ rank q t cs, jge c.score (num t) = false := by
      intro c hc
      rcases mem_rank q t cs c hc with ⟨c₀, hc₀, rfl⟩
      have hcs : c₀ ∈ cs := by
        rw [← hb]
        exact survivors_subset q t cs c₀ hc₀
      have := List.filter_eq_nil_iff.mp hfil c₀ hcs
      simpa using this
    have hlen3 : (rank q t cs).length ≤ 3 := by
      rw [rank_length, hsurv, List.length_take]
      omega
    have hsur_out : survivors q t (rank q t cs) = rank q t cs := by
      unfold survivors
      rw [hbout]
      have : thresholdFilter t (rank q t cs) = [] := by
        unfold thresholdFilter
        exact List.filter_eq_nil_iff.mpr
          (fun c hc => by simp [hscore c hc])
      rw [this]
      have hmin : min 3 (rank q t cs).length = (rank q t cs).length := by
        omega
      simp [hmin]
    rw [hrank] at hsur_out ⊢
    exact rank_of_fixpoint q t _ hsur_out
  · -- survivor case: everything in the output passes the threshold again
    have hfne : (thresholdFilter t (boostPass q cs)).length ≠ 0 := by
      rw [hb]
      intro hlen
      exact hfil (List.length_eq_zero.mp hlen)
    have hsurv : survivors q t cs = thresholdFilter t cs := by
      unfold survivors
      rw [if_neg hfne, hb]
    have hrank : rank q t cs =
        jsSort rrKey (reRankPass (thresholdFilter t cs)) := by
      unfold rank
      rw [hsurv]
    have hscore : ∀ c ∈ rank q t cs, jge c.score (num t) = true := by
      intro c hc
      rcases mem_rank q t cs c hc with ⟨c₀, hc₀, rfl⟩
      rw [hsurv] at hc₀
      have := List.mem_filter.mp hc₀
      simpa using this.2
    have hsur_out : survivors q t (rank q t cs) = rank q t cs := by
      unfold survivors
      rw [hbout]
      have hself : thresholdFilter t (rank q t cs) = rank q t cs := by
        unfold thresholdFilter
        exact List.filter_eq_self.mpr (fun c hc => by simp [hscore c hc])
      rw [hself]
      by_cases hnil : (rank q t cs).length = 0
      · rw [if_pos hnil]
        rw [List.length_eq_zero.mp hnil]
        simp
      · rw [if_neg hnil]
    rw [hrank] at hsur_out ⊢
    exact rank_of_fixpoint q t _ hsur_out

/-- C6 (witness for the amended theorem): with a question that contains no
filename-like token, re-ranking the ranked fallback list changes nothing. -/
theorem C6_rank_idempotent_witness :
    rank "plain question" (0.2 : ℚ)
        (rank "plain question" (0.2 : ℚ) rawFallback) =
      rank "plain question" (0.2 : ℚ) rawFallback :=
  C6_rank_idempotent "plain question" (0.2 : ℚ) rawFallback
    (by
      intro m hm
      have hnone : scanFileMention "plain question".data = none := by decide
      rw [hnone] at hm
      exact Option.noConfusion hm)

/-! ### Lemmas about cosine similarity and topK -/

theorem jdot_self (a : List ℚ) : jdot a a = num (sumSq a) := by
  induction a with
  | nil => simp [jdot, sumSq]
  | cons x xs ih => simp [jdot, sumSq, ih, List.map_cons, List.sum_cons, sumSq]

theorem jdot_nan_of_longer : ∀ (a b : List ℚ), b.length < a.length →
    jdot a b = nan := by
  intro a
  induction a with
  | nil => intro b hb; simp at hb
  | cons x xs ih =>
      intro b hb
      cases b with
      | nil =>
          show jadd (jmul (num x) nan) (jdot xs []) = nan
          rw [show jmul (num x) nan = nan from rfl]
          simp
      | cons y ys =>
          have : ys.length < xs.length := by simpa using hb
          simp [jdot, ih ys this, jadd_nan_right]

theorem sumSq_nonneg (a : List ℚ) : 0 ≤ sumSq a := by
  induction a with
  | nil => simp [sumSq]
  | cons x xs ih =>
      simp only [sumSq, List.map_cons, List.sum_cons] at ih ⊢
      nlinarith [mul_self_nonneg x]

theorem sumSq_eq_zero (a : List ℚ) (h : sumSq a = 0) : ∀ x ∈ a, x = 0 := by
  induction a with
  | nil => simp
  | cons x xs ih =>
      simp only [sumSq, List.map_cons, List.sum_cons] at h
      have hx2 : 0 ≤ x * x := mul_self_nonneg x
      have hxs : 0 ≤ sumSq xs := sumSq_nonneg xs
      have hx : x * x = 0 := by
        simp only [sumSq] at hxs
        linarith
      have hxs0 : sumSq xs = 0 := by
        simp only [sumSq] at hxs ⊢
        linarith [mul_self_eq_zero.mp hx ▸ h]
      intro y hy
      rcases List.mem_cons.mp hy with hy1 | hy1
      · subst hy1; exact mul_self_eq_zero.mp hx
      · exact ih hxs0 y hy1

theorem jdot_zero_left : ∀ (a b : List ℚ), (∀ x ∈ a, x = 0) →
    jdot a b = num 0 ∨ jdot a b = nan := by
  intro a
  induction a with
  | nil => intro b _; left; rfl
  | cons x xs ih =>
      intro b h
      have hx : x = 0 := h x (by simp)
      cases b with
      | nil =>
          right
          show jadd (jmul (num x) nan) (jdot xs []) = nan
          rw [show jmul (num x) nan = nan from rfl]
          simp
      | cons y ys =>
          have := ih ys (fun z hz => h z (by simp [hz]))
          rcases this with h1 | h1
          · left; simp [jdot, h1, hx]
          · right; simp [jdot, h1, jadd_nan_right]

theorem jdot_zero_right : ∀ (a b : List ℚ), (∀ y ∈ b, y = 0) →
    jdot a b = num 0 ∨ jdot a b = nan := by
  intro a
  induction a with
  | nil => intro b _; left; rfl
  | cons x xs ih =>
      intro b h
      cases b with
      | nil =>
          right
          show jadd (jmul (num x) nan) (jdot xs []) = nan
          rw [show jmul (num x) nan = nan from rfl]
          simp
      | cons y ys =>
          have hy : y = 0 := h y (by simp)
          have := ih ys (fun z hz => h z (by simp [hz]))
          rcases this with h1 | h1
          · left; simp [jdot, h1, hy]
          · right; simp [jdot, h1, jadd_nan_right]

theorem jnorm_eq (s : ℚ → ℚ) (a : List ℚ) :
    jnorm s a = num (s (sumSq a)) := by
  unfold jnorm
  rw [jdot_self]
  rw [show jsqrt s (num (sumSq a)) =
        if sumSq a < 0 then nan else num (s (sumSq a)) from rfl]
  rw [if_neg (not_lt.mpr (sumSq_nonneg a))]

theorem topKPre_length (s : ℚ → ℚ) (vectors : List VRec) (qEmb : List ℚ) :
    (topKPre s vectors qEmb).length = vectors.length := by
  unfold topKPre
  rw [jsSort_length, List.length_map]

/-! ### Claim theorems for the vector store -/

/-- C5 (counterexample): with a zero-norm stored embedding the computed
score is NaN; the comparator `b.score - a.score` evaluates to NaN, which
ECMA SortCompare treats as 0, so the NaN-scored record stays in front of a
score-1 record and the returned sequence is not sorted by non-increasing
score. -/
theorem C5_counterexample :
    (topK sqrtModel storeZeroFirst [(1 : ℚ)] 2).map Cand.score =
      [nan, num 1] ∧
    ¬ (topK sqrtModel storeZeroFirst [(1 : ℚ)] 2).Pairwise
        (fun a b => jge a.score b.score = true) := by
  with_unfolding_all decide

/-- C5 (amended): for every square-root model, collection, query and
`k ≥ 1`, `topK` returns at most `k` and at most collection-size results; an
empty collection yields the empty sequence; the result is sorted by
non-increasing score provided every returned score is an actual number (no
NaN, as arises from zero-norm embeddings or dimension mismatch); and
equal-score ties keep the stored insertion order (stated as: each
equal-score class of the sorted scored list appears in store order). -/
theorem C5_topK (s : ℚ → ℚ) (vectors : List VRec) (qEmb : List ℚ) (k : ℕ)
    (hk : 1 ≤ k) :
    (topK s vectors qEmb k).length ≤ k ∧
    (topK s vectors qEmb k).length ≤ vectors.length ∧
    (vectors = [] → topK s vectors qEmb k = []) ∧
    ((∀ c ∈ topK s vectors qEmb k, c.score.isNum = true) →
      (topK s vectors qEmb k).Pairwise
        (fun a b => jge a.score b.score = true)) ∧
    (∀ v : JNum, (topKPre s vectors qEmb).filter (fun sv => sv.1 == v) =
      (vectors.map (fun r => (cosine s qEmb r.embedding, r))).filter
        (fun sv => sv.1 == v)) := by
  refine ⟨?_, ?_, ?_, ?_, ?_⟩
  · unfold topK
    rw [List.length_map, List.length_take]
    omega
  · unfold topK
    rw [List.length_map, List.length_take, topKPre_length]
    omega
  · intro hv
    subst hv
    simp [topK, topKPre, jsSort]
  · intro hnum
    unfold topK
    refine List.pairwise_map.mpr ?_
    have hpre : (topKPre s vectors qEmb).Pairwise (CmpLE Prod.fst) := by
      unfold topKPre
      exact pairwise_jsSort Prod.fst _
    have htake : ((topKPre s vectors qEmb).take k).Pairwise (CmpLE Prod.fst) :=
      hpre.sublist (List.take_sublist k _)
    have hnum2 : ∀ sv ∈ (topKPre s vectors qEmb).take k,
        (sv.1).isNum = true := by
      intro sv hsv
      have hmem : candOf sv ∈ topK s vectors qEmb k := by
        unfold topK
        exact List.mem_map.mpr ⟨sv, hsv, rfl⟩
      exact hnum _ hmem
    exact pairwise_jge_of_cmpLE Prod.fst htake hnum2
  · intro v
    unfold topKPre
    exact filter_jsSort Prod.fst (fun sv => sv.1 == v)
      (fun a b ha hb => by
        have ha' := beq_iff_eq.mp ha
        have hb' := beq_iff_eq.mp hb
        rw [ha', hb']) _

/-- C5 (witness): a two-record store with unit embeddings, `k = 2`: both
bounds hold and the all-numeric output is sorted. -/
theorem C5_topK_witness :
    (topK sqrtModel storeUnit [(1 : ℚ)] 2).length ≤ 2 ∧
    (topK sqrtModel storeUnit [(1 : ℚ)] 2).Pairwise
      (fun a b => jge a.score b.score = true) :=
  ⟨(C5_topK sqrtModel storeUnit [(1 : ℚ)] 2 (by decide)).1,
   (C5_topK sqrtModel storeUnit [(1 : ℚ)] 2 (by decide)).2.2.2.1
     (by with_unfolding_all decide)⟩

/-- C10: cosine is total but unguarded.  (a) Whenever either vector has zero
norm (`Σ xᵢ² = 0`, equivalently `norm = 0` for any square root with
`s q = 0 ↔ q = 0`) or the query is longer than the stored embedding, the
score is NaN rather than an error.  (b) A NaN score never passes the
threshold filter.  (c) A NaN-scored candidate appears in the final ranked
output only if the threshold filter produced nothing and the fallback path
fired. -/
theorem C10_cosine_unguarded :
    (∀ (s : ℚ → ℚ), (∀ q, 0 ≤ q → (s q = 0 ↔ q = 0)) →
      ∀ (a b : List ℚ),
        (sumSq a = 0 ∨ sumSq b = 0 ∨ b.length < a.length) →
        cosine s a b = nan) ∧
    (∀ (t : ℚ) (cs : List Cand) (c : Cand), c ∈ thresholdFilter t cs →
      c.score ≠ nan) ∧
    (∀ (q : String) (t : ℚ) (cs : List Cand) (c : Cand), c ∈ rank q t cs →
      c.score = nan → thresholdFilter t (boostPass q cs) = []) := by
  refine ⟨?_, ?_, ?_⟩
  · intro s hs a b hcase
    unfold cosine
    rcases hcase with hza | hzb | hlen
    · have hs0 : s (sumSq a) = 0 := by
        rw [hza]
        exact (hs 0 le_rfl).mpr rfl
      have hna : jnorm s a = num 0 := by rw [jnorm_eq, hs0]
      have hnb : jnorm s b = num (s (sumSq b)) := jnorm_eq s b
      have hden : jmul (jnorm s a) (jnorm s b) = num 0 := by
        rw [hna, hnb]
        simp [jmul]
      rw [hden]
      rcases jdot_zero_left a b (sumSq_eq_zero a hza) with h1 | h1 <;>
        simp [h1, jdiv]
    · have hs0 : s (sumSq b) = 0 := by
        rw [hzb]
        exact (hs 0 le_rfl).mpr rfl
      have hnb : jnorm s b = num 0 := by rw [jnorm_eq, hs0]
      have hna : jnorm s a = num (s (sumSq a)) := jnorm_eq s a
      have hden : jmul (jnorm s a) (jnorm s b) = num 0 := by
        rw [hna, hnb]
        simp [jmul]
      rw [hden]
      rcases jdot_zero_right a b (sumSq_eq_zero b hzb) with h1 | h1 <;>
        simp [h1, jdiv]
    · rw [jdot_nan_of_longer a b hlen]
      cases jmul (jnorm s a) (jnorm s b) <;> rfl
  · intro t cs c hc hnan
    have := (List.mem_filter.mp hc).2
    rw [hnan] at this
    simp at this
  · intro q t cs c hc hnan
    rcases mem_rank q t cs c hc with ⟨c₀, hc₀, rfl⟩
    simp only at hnan
    by_cases hlen : (thresholdFilter t (boostPass q cs)).length = 0
    · exact List.length_eq_zero.mp hlen
    · exfalso
      unfold survivors at hc₀
      rw [if_neg hlen] at hc₀
      have := (List.mem_filter.mp hc₀).2
      rw [hnan] at this
      simp at this

/-- C10 (witness): `sqrtModel` satisfies the square-root axiom; the cosine
of a zero vector is NaN, as is the cosine of a query longer than the stored
embedding; a non-NaN candidate picked out of a concrete filter output indeed
has non-NaN score; and the NaN-scored candidate that reaches the ranked
output of `rawNan` does so with an empty filter result. -/
theorem C10_cosine_unguarded_witness :
    cosine sqrtModel [(0 : ℚ)] [(1 : ℚ)] = nan ∧
    cosine sqrtModel [(1 : ℚ), (1 : ℚ)] [(1 : ℚ)] = nan ∧
    (mkCand "b" (0.1 : ℚ)).score ≠ nan ∧
    thresholdFilter (0.2 : ℚ) (boostPass "q" rawNan) = [] := by
  have hs : ∀ q : ℚ, 0 ≤ q → (sqrtModel q = 0 ↔ q = 0) := by
    intro q hq
    unfold sqrtModel
    by_cases h : q ≤ 0
    · rw [if_pos h]
      constructor
      · intro _; linarith
      · intro _; rfl
    · rw [if_neg h]
  refine ⟨?_, ?_, ?_, ?_⟩
  · exact (C10_cosine_unguarded.1) sqrtModel hs [(0 : ℚ)] [(1 : ℚ)]
      (Or.inl (by with_unfolding_all decide))
  · exact (C10_cosine_unguarded.1) sqrtModel hs [(1 : ℚ), (1 : ℚ)] [(1 : ℚ)]
      (Or.inr (Or.inr (by decide)))
  · exact (C10_cosine_unguarded.2.1) (0.05 : ℚ) rawNan (mkCand "b" (0.1 : ℚ))
      (by with_unfolding_all decide)
  · exact (C10_cosine_unguarded.2.2) "q" (0.2 : ℚ) rawNan nanRanked
      (by with_unfolding_all decide) rfl

/-! ### Lemmas for the heap model -/

theorem boostAt_preserve (fn : List Char) (h : List HVal) (j i : ℕ)
    (hij : i ≠ j) : (boostAt fn h j)[i]? = h[i]? := by
  unfold boostAt
  cases hj : h[j]? with
  | none => rfl
  | some v =>
      cases v with
      | vrec r => rfl
      | cobj c =>
          dsimp only
          by_cases hcond : c.doc ≠ "" ∧ lowerStr c.doc.data = fn
          · rw [if_pos hcond]
            exact List.getElem?_set_ne hij.symm
          · rw [if_neg hcond]

theorem boostHeap_preserve (fn : List Char) :
    ∀ (idxs : List ℕ) (h : List HVal) (n : ℕ), (∀ j ∈ idxs, n ≤ j) →
      ∀ i, i < n → (boostHeap fn idxs h)[i]? = h[i]? := by
  intro idxs
  induction idxs with
  | nil => intro h n _ i _; rfl
  | cons j js ih =>
      intro h n hall i hi
      have h1 : (boostHeap fn js (boostAt fn h j))[i]? = (boostAt fn h j)[i]? :=
        ih (boostAt fn h j) n (fun j2 hj2 => hall j2 (by simp [hj2])) i hi
      have h2 : (boostAt fn h j)[i]? = h[i]? := by
        refine boostAt_preserve fn h j i ?_
        have := hall j (by simp)
        omega
      calc (boostHeap fn (j :: js) h)[i]?
          = (boostHeap fn js (boostAt fn h j))[i]? := rfl
        _ = (boostAt fn h j)[i]? := h1
        _ = h[i]? := h2

theorem readStore_append (h1 h2 : List HVal) :
    readStore (h1 ++ h2) = readStore h1 ++ readStore h2 := by
  unfold readStore
  exact List.filterMap_append h1 h2 _

theorem readStore_map_cobj (cands : List Cand) :
    readStore (cands.map HVal.cobj) = [] := by
  induction cands with
  | nil => rfl
  | cons c cs ih => simpa [readStore, List.filterMap_cons] using ih

theorem readStore_set_cobj :
    ∀ (h : List HVal) (j : ℕ) (c c2 : Cand), h[j]? = some (HVal.cobj c) →
      readStore (h.set j (HVal.cobj c2)) = readStore h := by
  intro h
  induction h with
  | nil => intro j c c2 hj; simp at hj
  | cons x xs ih =>
      intro j c c2 hj
      cases j with
      | zero =>
          simp only [List.getElem?_cons_zero, Option.some_inj] at hj
          subst hj
          simp [readStore, List.filterMap_cons]
      | succ j2 =>
          simp only [List.getElem?_cons_succ] at hj
          simp only [List.set_cons_succ]
          unfold readStore
          rw [List.filterMap_cons, List.filterMap_cons]
          rw [show List.filterMap _ (xs.set j2 (HVal.cobj c2)) =
            readStore (xs.set j2 (HVal.cobj c2)) from rfl]
          rw [ih j2 c c2 hj]
          rfl

theorem boostAt_readStore (fn : List Char) (h : List HVal) (j : ℕ) :
    readStore (boostAt fn h j) = readStore h := by
  unfold boostAt
  cases hj : h[j]? with
  | none => rfl
  | some v =>
      cases v with
      | vrec r => rfl
      | cobj c =>
          dsimp only
          by_cases hcond : c.doc ≠ "" ∧ lowerStr c.doc.data = fn
          · rw [if_pos hcond]
            exact readStore_set_cobj h j c _ hj
          · rw [if_neg hcond]

theorem boostHeap_readStore (fn : List Char) :
    ∀ (idxs : List ℕ) (h : List HVal),
      readStore (boostHeap fn idxs h) = readStore h := by
  intro idxs
  induction idxs with
  | nil => intro h; rfl
  | cons j js ih =>
      intro h
      calc readStore (boostHeap fn (j :: js) h)
          = readStore (boostHeap fn js (boostAt fn h j)) := rfl
        _ = readStore (boostAt fn h j) := ih (boostAt fn h j)
        _ = readStore h := boostAt_readStore fn h j

/-- C8: store isolation.  `topK` allocates its results as fresh heap cells
(all returned addresses lie past the pre-existing heap), so running the
boost pass's in-place `score += 0.6` mutation through those addresses leaves
every pre-existing heap cell — in particular every loaded store record —
unchanged. -/
theorem C8_store_isolation (s : ℚ → ℚ) (h : List HVal) (qEmb : List ℚ)
    (k : ℕ) (fn : List Char) :
    (∀ j ∈ (topKAlloc s h qEmb k).1, h.length ≤ j) ∧
    (∀ i, i < h.length →
      (boostHeap fn (topKAlloc s h qEmb k).1 (topKAlloc s h qEmb k).2)[i]? =
        h[i]?) ∧
    readStore (boostHeap fn (topKAlloc s h qEmb k).1 (topKAlloc s h qEmb k).2) =
      readStore h := by
  refine ⟨?_, ?_, ?_⟩
  · intro j hj
    unfold topKAlloc at hj
    simp only at hj
    exact (List.mem_range'_1.mp hj).1
  · intro i hi
    have hidx : ∀ j ∈ (topKAlloc s h qEmb k).1, h.length ≤ j := by
      intro j hj
      unfold topKAlloc at hj
      simp only at hj
      exact (List.mem_range'_1.mp hj).1
    have hpre := boostHeap_preserve fn (topKAlloc s h qEmb k).1
      (topKAlloc s h qEmb k).2 h.length hidx i hi
    rw [hpre]
    unfold topKAlloc
    simp only
    exact List.getElem?_append_left hi
  · rw [boostHeap_readStore]
    unfold topKAlloc
    simp only
    rw [readStore_append, readStore_map_cobj]
    simp

/-- C8 (witness): a concrete two-record heap, `k = 2`, boost key matching
the candidates: the fresh addresses lie past the store, cell 0 is unchanged
after the mutation, and the loaded collection reads back identically. -/
theorem C8_store_isolation_witness :
    heapW.length ≤ 2 ∧
    (boostHeap ("u.txt".data) (topKAlloc sqrtModel heapW [(1 : ℚ)] 2).1
        (topKAlloc sqrtModel heapW [(1 : ℚ)] 2).2)[0]? = heapW[0]? ∧
    readStore (boostHeap ("u.txt".data) (topKAlloc sqrtModel heapW [(1 : ℚ)] 2).1
        (topKAlloc sqrtModel heapW [(1 : ℚ)] 2).2) = readStore heapW :=
  ⟨(C8_store_isolation sqrtModel heapW [(1 : ℚ)] 2 ("u.txt".data)).1 2
      (by with_unfolding_all decide),
   (C8_store_isolation sqrtModel heapW [(1 : ℚ)] 2 ("u.txt".data)).2.1 0
      (by decide),
   (C8_store_isolation sqrtModel heapW [(1 : ℚ)] 2 ("u.txt".data)).2.2⟩

/-! ### Lemmas for request validation and the response contract -/

theorem dropWhile_replicate_false {p : Char → Bool} {a : Char}
    (h : p a = false) (n : ℕ) :
    List.dropWhile p (List.replicate n a) = List.replicate n a := by
  induction n with
  | zero => rfl
  | succ n2 ih => simp [List.replicate_succ, List.dropWhile_cons, h]

theorem trimJS_replicate_a (n : ℕ) :
    trimJS (String.mk (List.replicate n 'a')) =
      String.mk (List.replicate n 'a') := by
  unfold trimJS
  have ha : isJsSpace 'a' = false := by decide
  rw [show (String.mk (List.replicate n 'a')).data =
        List.replicate n 'a' from rfl]
  rw [dropWhile_replicate_false ha, List.reverse_replicate,
    dropWhile_replicate_false ha, List.reverse_replicate]

/-- C1 (evaluation of the shape-validation at the decisive inputs): a parse
error is classified `model_response_not_json`; a parsed number or boolean is
classified `invalid_model_json_shape`; a well-shaped object succeeds; but
the parsed value `null` — for which `typeof null === "object"` passes the
first test — makes `parsed.answer` throw, and the handler's catch-all turns
it into `server_error` instead of the `invalid_model_json_shape` failure the
specification prescribes for every parseable-but-non-object value. -/
theorem C1_null_shape_crash :
    classifyModelOutput (.ok .jnull) "null" = .serverError ∧
    classifyModelOutput (.ok (.jnum (num 5))) "5" =
      .invalidShape (.jnum (num 5)) ∧
    classifyModelOutput (.ok (.bool true)) "true" =
      .invalidShape (.bool true) ∧
    classifyModelOutput (.error "SyntaxError: Unexpected token") "not json" =
      .notJson "not json" "SyntaxError: Unexpected token" ∧
    classifyModelOutput
        (.ok (.obj [("answer", .str "x"), ("sources", .arr [])])) "raw" =
      .valid "x" [] :=
  ⟨rfl, rfl, rfl, rfl, rfl⟩

/-- C7: the question must be a truthy string whose trimmed form is non-empty
and whose (untrimmed) length is at most 2000: a 2000-character non-blank
question passes, a 2001-character one is rejected as `question too long`,
every non-string value and every all-whitespace string is rejected as
`question required`, and a rejected request produces the error body with no
provider call. -/
theorem C7_input_validation :
    (∀ s : String, (trimJS s).length ≠ 0 → s.length = 2000 →
        validateQuestion (.str s) = none) ∧
    (∀ s : String, (trimJS s).length ≠ 0 → s.length = 2001 →
        validateQuestion (.str s) = some "question too long") ∧
    (∀ v : JVal, jtypeof v ≠ "string" →
        validateQuestion v = some "question required") ∧
    (∀ s : String, (trimJS s).length = 0 →
        validateQuestion (.str s) = some "question required") ∧
    (∀ (env : AskEnv) (body : JVal) (e : String),
        validateQuestion (optProp body "question") = some e →
        askHandler env body = (.obj [("error", .str e)], [])) := by
  have htr : ∀ s : String, (trimJS s).length ≠ 0 → truthy (.str s) = true := by
    intro s h1
    have hs : s ≠ "" := by
      intro he
      subst he
      exact h1 rfl
    simp [truthy, hs]
  refine ⟨?_, ?_, ?_, ?_, ?_⟩
  · intro s h1 h2
    unfold validateQuestion
    rw [if_neg (by simp [htr s h1])]
    dsimp only
    rw [if_neg h1, if_neg (by omega)]
  · intro s h1 h2
    unfold validateQuestion
    rw [if_neg (by simp [htr s h1])]
    dsimp only
    rw [if_neg h1, if_pos (by omega)]
  · intro v hv
    cases v with
    | undefined => rfl
    | jnull => rfl
    | bool b => cases b <;> rfl
    | jnum x =>
        cases x with
        | num q =>
            unfold validateQuestion
            by_cases hq : q = 0
            · rw [if_pos (by simp [truthy, hq])]
            · rw [if_neg (by simp [truthy, hq])]
        | nan => rfl
        | inf => rfl
        | ninf => rfl
    | str s => exact absurd rfl hv
    | arr xs => rfl
    | obj fs => rfl
  · intro s h
    by_cases hs : s = ""
    · subst hs
      rfl
    · unfold validateQuestion
      rw [if_neg (by simp [truthy, hs])]
      dsimp only
      rw [if_pos h]
  · intro env body e h
    unfold askHandler
    dsimp only
    rw [h]

/-- C7 (witness): a 2000-`a` question is accepted, a 2001-`a` question is
rejected as too long, a missing question is rejected as required, and the
rejected request on a concrete environment makes no provider call. -/
theorem C7_input_validation_witness :
    validateQuestion (.str (String.mk (List.replicate 2000 'a'))) = none ∧
    validateQuestion (.str (String.mk (List.replicate 2001 'a'))) =
      some "question too long" ∧
    validateQuestion .undefined = some "question required" ∧
    askHandler envW (.obj []) =
      (.obj [("error", .str "question required")], []) := by
  refine ⟨?_, ?_, ?_, ?_⟩
  · refine C7_input_validation.1 (String.mk (List.replicate 2000 'a')) ?_ ?_
    · rw [trimJS_replicate_a]
      rw [show (String.mk (List.replicate 2000 'a')).length =
            (List.replicate 2000 'a').length from rfl]
      rw [List.length_replicate]
      omega
    · rw [show (String.mk (List.replicate 2000 'a')).length =
            (List.replicate 2000 'a').length from rfl]
      rw [List.length_replicate]
  · refine C7_input_validation.2.1 (String.mk (List.replicate 2001 'a')) ?_ ?_
    · rw [trimJS_replicate_a]
      rw [show (String.mk (List.replicate 2001 'a')).length =
            (List.replicate 2001 'a').length from rfl]
      rw [List.length_replicate]
      omega
    · rw [show (String.mk (List.replicate 2001 'a')).length =
            (List.replicate 2001 'a').length from rfl]
      rw [List.length_replicate]
  · exact C7_input_validation.2.2.1 .undefined (by decide)
  · exact C7_input_validation.2.2.2.2 envW (.obj []) "question required" rfl

/-- C9: in the `invalid_model_json_shape` response each `used_contexts`
entry is the three-field object `{doc, chunkIndex, score}`, while in the
success and `model_response_not_json` responses each entry additionally
carries `reRankScore`; stated both as the exact value of the response's
`used_contexts` field and as the key lists of its entries. -/
theorem C9_used_contexts_shape (cands : List Cand) (parsed : JVal)
    (raw err answer : String) (sources : List JVal) (lat : ℚ) :
    optProp (invalidShapeResponse parsed cands lat) "used_contexts" =
      .arr (cands.map usedContextShort) ∧
    (∀ c ∈ cands, objKeys (usedContextShort c) =
      ["doc", "chunkIndex", "score"]) ∧
    optProp (notJsonResponse raw err cands lat) "used_contexts" =
      .arr (cands.map usedContextFull) ∧
    optProp (successResponse answer sources cands lat) "used_contexts" =
      .arr (cands.map usedContextFull) ∧
    (∀ c ∈ cands, objKeys (usedContextFull c) =
      ["doc", "chunkIndex", "score", "reRankScore"]) := by
  refine ⟨rfl, ?_, rfl, rfl, ?_⟩
  · intro c _
    rfl
  · intro c _
    rfl

/-- C9 (witness): the discriminating shapes at a concrete candidate list. -/
theorem C9_used_contexts_shape_witness :
    optProp (invalidShapeResponse .jnull rawAAB 0) "used_contexts" =
      .arr (rawAAB.map usedContextShort) ∧
    objKeys (usedContextShort (mkCand "A" (0.5 : ℚ))) =
      ["doc", "chunkIndex", "score"] ∧
    objKeys (usedContextFull (mkCand "A" (0.5 : ℚ))) =
      ["doc", "chunkIndex", "score", "reRankScore"] :=
  ⟨(C9_used_contexts_shape rawAAB .jnull "r" "e" "a" [] 0).1,
   (C9_used_contexts_shape rawAAB .jnull "r" "e" "a" [] 0).2.1
     (mkCand "A" (0.5 : ℚ)) (by simp [rawAAB]),
   (C9_used_contexts_shape rawAAB .jnull "r" "e" "a" [] 0).2.2.2.2
     (mkCand "A" (0.5 : ℚ)) (by simp [rawAAB])⟩


end RagSvc
